import Mathlib

/-!
Verification of the email spam classifier repository.

Shallow embedding of the three source files:
  * `preprocessor.py` — the `EmailPreprocessor` text-normalization pipeline,
  * `model.py` — model loading, prediction/confidence, keyword fallback,
  * `app.py` — the `/predict` route's validation logic.

Strings are modelled as `List Char` (with `String` wrappers where the Python
signatures take strings).  The Python regular expressions used by the
preprocessor are compiled by hand into deterministic scanning functions that
reproduce the leftmost-match / greedy-with-backtracking behaviour of the
specific patterns appearing in the source (`\r?\n\r?\n`,
`https?://\S+|www\.\S+`, `\b\d+(?:[.,]\d+)?\b`, `[^\w\s]`, `\s+`).
Characters are treated at ASCII granularity: `str.lower`, `\w` and `\s` are
modelled on their ASCII fragments, which is exact for every input appearing
in the claims.  Probabilities (Python floats) are modelled as rationals.
-/

/-! ## Character classes (ASCII models of Python `\s`, `\w`, `str.lower`) -/

/-- Python `\s` for ASCII: space, tab, newline, carriage return, vertical
tab, form feed. -/
def isWs (c : Char) : Bool :=
  c = ' ' || c = '\t' || c = '\n' || c = '\r' || c = '\x0b' || c = '\x0c'

/-- Python `\w` for ASCII: letters, digits, underscore. -/
def isWordChar (c : Char) : Bool :=
  c.isAlpha || c.isDigit || c = '_'

/-- ASCII fragment of Python `str.lower` on a single character. -/
def pyLower (c : Char) : Char :=
  if 65 ≤ c.toNat ∧ c.toNat ≤ 90 then Char.ofNat (c.toNat + 32) else c

/-- Python substring containment `p in t` on character lists. -/
def occursIn (p : List Char) : List Char → Bool
  | [] => p.isEmpty
  | c :: rest => p.isPrefixOf (c :: rest) || occursIn p rest

/-- Consume an exact literal from the front of a list, returning the rest. -/
def dropLit : List Char → List Char → Option (List Char)
  | [], l => some l
  | _ :: _, [] => none
  | p :: ps, c :: cs => if c = p then dropLit ps cs else none

/-! ## `preprocessor.py`: the `EmailPreprocessor` pipeline -/

/-- One line ending as matched by `\r?\n` (with the backtracking of the
Python engine: at a given position, `\r\n` is preferred, plain `\n`
otherwise, and a lone `\r` never matches). -/
def eatNl : List Char → Option (List Char)
  | [] => none
  | c :: rest =>
    if c = '\n' then some rest
    else if c = '\r' then
      match rest with
      | [] => none
      | c2 :: r2 => if c2 = '\n' then some r2 else none
    else none

/-- A match of `\r?\n\r?\n` starting at the head of the list, returning the
text after the match. -/
def matchBlank (l : List Char) : Option (List Char) :=
  (eatNl l).bind eatNl

/-- Leftmost match of `\r?\n\r?\n`: the remainder after the first blank-line
separator, or `none` when the pattern never matches. -/
def findBlankSplit : List Char → Option (List Char)
  | [] => none
  | c :: rest =>
    match matchBlank (c :: rest) with
    | some r => some r
    | none => findBlankSplit rest

/-- `EmailPreprocessor._strip_headers`:
`re.split(r'\r?\n\r?\n', text, maxsplit=1)` keeping `parts[1]` when the
pattern matched and the whole text otherwise. -/
def stripHeaders (l : List Char) : List Char :=
  (findBlankSplit l).getD l

/-- A match of `https?://\S+|www\.\S+` starting at the head of the list,
returning the remainder after the match.  The three scheme literals are
mutually exclusive as prefixes, and `\S+` must consume at least one
character. -/
def matchUrlAt (l : List Char) : Option (List Char) :=
  let afterScheme :=
    match dropLit ['h','t','t','p','s',':','/','/'] l with
    | some r => some r
    | none =>
      match dropLit ['h','t','t','p',':','/','/'] l with
      | some r => some r
      | none => dropLit ['w','w','w','.'] l
  match afterScheme with
  | some r =>
    let body := r.takeWhile (fun c => !isWs c)
    if body.isEmpty then none else some (r.drop body.length)
  | none => none

/-- Scanner for `re.sub(r'https?://\S+|www\.\S+', ' URL ', text)`: walk the
text left to right, replacing each leftmost match and continuing after its
end.  Fuel is the length of the input; each step consumes at least one
character. -/
def replaceUrlsGo : Nat → List Char → List Char
  | 0, l => l
  | _ + 1, [] => []
  | fuel + 1, c :: rest =>
    match matchUrlAt (c :: rest) with
    | some rem => [' ','U','R','L',' '] ++ replaceUrlsGo fuel rem
    | none => c :: replaceUrlsGo fuel rest

/-- `EmailPreprocessor._replace_urls`. -/
def replaceUrls (l : List Char) : List Char :=
  replaceUrlsGo l.length l

/-- A match of `\b\d+(?:[.,]\d+)?\b` starting at the head of the list.
`prevWord` says whether the character immediately before the current
position is a word character (for the leading `\b`; the first matched
character is a digit, hence a word character).  Backtracking of the
trailing `\b` reduces to: keep the full optional group when the character
after it is not a word character, otherwise fall back to the bare integer
part, whose following separator character always provides a boundary. -/
def matchNumAt (prevWord : Bool) (l : List Char) : Option (List Char) :=
  if prevWord then none
  else
    let d1 := l.takeWhile Char.isDigit
    if d1.isEmpty then none
    else
      let r1 := l.drop d1.length
      match r1 with
      | [] => some []
      | sep :: r2 =>
        if sep = '.' || sep = ',' then
          let d2 := r2.takeWhile Char.isDigit
          if d2.isEmpty then some r1
          else
            let r3 := r2.drop d2.length
            match r3 with
            | [] => some []
            | c :: _ => if isWordChar c then some r1 else some r3
        else if isWordChar sep then none
        else some r1

/-- Scanner for `re.sub(r'\b\d+(?:[.,]\d+)?\b', ' NUMBER ', text)`,
tracking whether the previous character of the original text was a word
character.  After a match the previous character is the final digit of the
match, a word character. -/
def replaceNumbersGo : Nat → Bool → List Char → List Char
  | 0, _, l => l
  | _ + 1, _, [] => []
  | fuel + 1, prevWord, c :: rest =>
    match matchNumAt prevWord (c :: rest) with
    | some rem => [' ','N','U','M','B','E','R',' '] ++ replaceNumbersGo fuel true rem
    | none => c :: replaceNumbersGo fuel (isWordChar c) rest

/-- `EmailPreprocessor._replace_numbers`. -/
def replaceNumbers (l : List Char) : List Char :=
  replaceNumbersGo l.length false l

/-- `EmailPreprocessor._remove_punct`: `re.sub(r'[^\w\s]', ' ', text)`. -/
def removePunct (l : List Char) : List Char :=
  l.map fun c => if !(isWordChar c || isWs c) then ' ' else c

/-- `re.sub(r'\s+', ' ', text)`: collapse each maximal whitespace run to a
single space.  The flag records whether the previous character was part of
a whitespace run already emitted. -/
def collapseWs : Bool → List Char → List Char
  | _, [] => []
  | prevWs, c :: rest =>
    if isWs c then
      if prevWs then collapseWs true rest
      else ' ' :: collapseWs true rest
    else c :: collapseWs false rest

/-- Python `str.strip()` (ASCII whitespace model). -/
def pyStrip (l : List Char) : List Char :=
  ((l.dropWhile isWs).reverse.dropWhile isWs).reverse

/-- The final `re.sub(r'\s+', ' ', text).strip()` of
`EmailPreprocessor.transform`. -/
def wsNormalize (l : List Char) : List Char :=
  pyStrip (collapseWs false l)

/-- Python `text.split()`: maximal non-whitespace runs. -/
def splitWsTokens (l : List Char) : List (List Char) :=
  let p := l.foldr
    (fun c (acc : List Char × List (List Char)) =>
      if isWs c then ([], if acc.1.isEmpty then acc.2 else acc.1 :: acc.2)
      else (c :: acc.1, acc.2))
    ([], [])
  if p.1.isEmpty then p.2 else p.1 :: p.2

/-- `EmailPreprocessor._stem`: split on whitespace, stem each token, rejoin
with single spaces.  The Snowball stemmer itself is external to the
repository (imported from `nltk`), so it is a parameter. -/
def stemJoin (stem : List Char → List Char) (l : List Char) : List Char :=
  List.intercalate [' '] ((splitWsTokens l).map stem)

/-- The boolean toggles of `EmailPreprocessor.__init__`. -/
structure NormalizerConfig where
  strip_headers : Bool
  lowercase : Bool
  replace_urls : Bool
  replace_numbers : Bool
  remove_punctuation : Bool
  do_stemming : Bool

/-- The default constructor arguments of `EmailPreprocessor`. -/
def defaultConfig : NormalizerConfig :=
  ⟨true, true, true, true, true, false⟩

/-- `EmailPreprocessor.transform` on a single text: the per-text body of
the loop, steps applied in source order, followed by the unconditional
whitespace collapse and strip.  `stem` is the external Snowball stemmer,
used only when `do_stemming` is set. -/
def transform (cfg : NormalizerConfig) (stem : List Char → List Char)
    (s : String) : String :=
  let t0 := s.data
  let t1 := if cfg.strip_headers then stripHeaders t0 else t0
  let t2 := if cfg.lowercase then t1.map pyLower else t1
  let t3 := if cfg.replace_urls then replaceUrls t2 else t2
  let t4 := if cfg.replace_numbers then replaceNumbers t3 else t3
  let t5 := if cfg.remove_punctuation then removePunct t4 else t4
  let t6 := if cfg.do_stemming then stemJoin stem t5 else t5
  ⟨wsNormalize t6⟩

/-- Normalization with the default configuration (stemming disabled, so the
stemmer parameter is irrelevant; the identity is passed). -/
def normalizeDefault (s : String) : String :=
  transform defaultConfig id s

/-! ## `model.py`: prediction service -/

/-- The loaded classifier artifact, at its interface boundary.  `predict`
returns the class index for a text and `predict_proba` the per-class
probability row; `none` models the call raising an exception (including a
missing `predict_proba` capability). -/
structure Artifact where
  predict : String → Option Int
  predict_proba : String → Option (List ℚ)

/-- The fixed phrase list of `fallback_classification`. -/
def scamKeywords : List String :=
  ["urgent", "verify", "suspended", "click here", "prize",
   "winner", "congratulations", "bank account", "password",
   "confirm identity", "act now", "limited time", "free money",
   "nigerian prince", "inheritance", "tax refund", "claim now",
   "account locked", "unusual activity", "expires today",
   "verify your account", "confirm your identity", "update payment"]

/-- `sum(1 for keyword in scam_keywords if keyword in text_lower)`. -/
def scamScore (text : String) : Nat :=
  (scamKeywords.filter fun k => occursIn k.data (text.data.map pyLower)).length

/-- `fallback_classification`. -/
def fallback_classification (text : String) : String :=
  if 3 ≤ scamScore text then "Spam" else "Not Spam"

/-- `classify_email`, given the (already cached) loaded model.  A `none`
model is the fallback branch; a `none` prediction models the
`model.predict` call raising, which the code catches and routes to the
fallback. -/
def classify_email (m : Option Artifact) (text : String) : String :=
  match m with
  | some model =>
    match model.predict text with
    | some k => if k = 1 then "Spam" else "Not Spam"
    | none => fallback_classification text
  | none => fallback_classification text

/-- `numpy.ndarray.argmax` on a list: index of the first maximum. -/
def argmaxAux : List ℚ → Nat → Nat → ℚ → Nat
  | [], _, best, _ => best
  | x :: xs, i, best, v =>
    if v < x then argmaxAux xs (i + 1) i x else argmaxAux xs (i + 1) best v

/-- `numpy.ndarray.argmax` (empty input never reaches this point: the code
routes the raised `ValueError` to the fallback before calling it). -/
def npArgmax : List ℚ → Nat
  | [] => 0
  | x :: xs => argmaxAux xs 1 0 x

/-- `get_prediction_confidence`, given the (already cached) loaded model.
A `none` probability row models the `predict_proba` call raising (for
example the attribute being absent); an empty row models the `argmax`
call raising.  Both are caught and routed to `classify_email` with the
fixed confidence `0.85`. -/
def get_prediction_confidence (m : Option Artifact) (text : String) :
    String × ℚ :=
  match m with
  | some model =>
    match model.predict_proba text with
    | some proba =>
      if proba.isEmpty then (classify_email (some model) text, 0.85)
      else
        let idx := npArgmax proba
        let conf := proba.getD idx 0
        ((if idx = 1 then "Spam" else "Not Spam"), conf)
    | none => (classify_email (some model) text, 0.85)
  | none => (classify_email none text, 0.85)

/-- The module-level cache `_model` / `_model_loaded` of `model.py`. -/
structure ModelState where
  _model : Option Artifact
  _model_loaded : Bool

/-- The state at process start: `_model = None`, `_model_loaded = False`. -/
def initState : ModelState :=
  ⟨none, false⟩

/-- `load_model`.  `attempt` is the outcome of the external
file-existence check plus `joblib.load`: `none` covers both the
missing-file branch and a load exception (in both the code sets the loaded
flag, leaves `_model` as `None` and returns `None`); `some m` is a
successful load. -/
def load_model (s : ModelState) (attempt : Option Artifact) :
    Option Artifact × ModelState :=
  if s._model_loaded then (s._model, s)
  else
    match attempt with
    | none => (none, ⟨none, true⟩)
    | some m => (some m, ⟨some m, true⟩)

/-! ## `app.py`: the `/predict` route -/

/-- Body of the `POST /predict` handler.  The request body is modelled at
the point after `request.get_json()`: `none` is a missing or falsy body
(the `if not data` branch), `some field` a JSON object whose
`email_text` entry is `field` (absent entries default to `""` via
`data.get('email_text', '')`).  The result is the HTTP status paired with
the success payload `(prediction, confidence)` when one is produced. -/
def predictRoute (d : Option (Option String)) (m : Option Artifact) :
    Nat × Option (String × ℚ) :=
  match d with
  | none => (400, none)
  | some field =>
    let email : String := ⟨pyStrip (field.getD "").data⟩
    if email = "" then (400, none)
    else if email.length < 10 then (400, none)
    else (200, some (get_prediction_confidence m email))

/-- The trimmed `email_text` computed by the route, for stating its
validation conditions. -/
def trimmedField (field : Option String) : String :=
  ⟨pyStrip (field.getD "").data⟩

/-! ## Concrete artifacts used by witnesses -/

/-- An artifact whose probability row is an exact tie. -/
def tieArtifact : Artifact :=
  ⟨fun _ => some 0, fun _ => some [1/2, 1/2]⟩

/-- An artifact whose probability call fails but whose plain prediction
succeeds with class index 1. -/
def noProbaArtifact : Artifact :=
  ⟨fun _ => some 1, fun _ => none⟩

/-- The four concrete separators matched by `\r?\n\r?\n`: an empty line
under either line-ending convention. -/
def blankPatterns : List (List Char) :=
  [['\n', '\n'], ['\n', '\r', '\n'], ['\r', '\n', '\n'], ['\r', '\n', '\r', '\n']]

/-! ## Pipeline combinators for the idempotence analysis -/

/-- The optional header-stripping step of `transform`. -/
def stepStrip (b : Bool) (l : List Char) : List Char :=
  if b then stripHeaders l else l

/-- The optional lowercasing step of `transform`. -/
def stepLower (b : Bool) (l : List Char) : List Char :=
  if b then l.map pyLower else l

/-- The optional punctuation-removal step of `transform`. -/
def stepPunct (b : Bool) (l : List Char) : List Char :=
  if b then removePunct l else l

/-- `transform` restricted to configurations with URL replacement, number
replacement and stemming disabled, on character lists. -/
def corePipeline (fs flc fp : Bool) (l : List Char) : List Char :=
  wsNormalize (stepPunct fp (stepLower flc (stepStrip fs l)))

/-- Adjacent characters are not both whitespace. -/
def sepOk (a b : Char) : Prop :=
  isWs a = false ∨ isWs b = false

/-! ## Theorems -/

/-- C1 counterexample: the default-configuration normalizer is not
idempotent.  A first pass turns `"visit http://x.com/y now"` into
`"visit URL now"`; a second pass lowercases the sentinel token, giving
`"visit url now"`: URL (and NUMBER) tokens are inserted after the
lowercasing step, so they survive one pass in upper case only. -/
theorem C1_counterexample :
    normalizeDefault (normalizeDefault "visit http://x.com/y now")
      ≠ normalizeDefault "visit http://x.com/y now" := by
  decide

/-- C2 counterexample: the claim asks for the lowercase token `url` in the
default-configuration output, but the output of
`normalize("visit http://x.com/y now")` is `"visit URL now"`, which does
not contain `url`. -/
theorem C2_counterexample :
    ¬ (occursIn "url".data (normalizeDefault "visit http://x.com/y now").data = true
        ∧ occursIn "http://x.com/y".data
            (normalizeDefault "visit http://x.com/y now").data = false) := by
  decide

/-- C2 amended: the default-configuration output for
`"visit http://x.com/y now"` is `"visit URL now"`: it contains the
uppercase sentinel token `URL` (URL replacement runs after lowercasing)
and no longer contains the original URL substring. -/
theorem C2_amended :
    normalizeDefault "visit http://x.com/y now" = "visit URL now"
    ∧ occursIn "URL".data (normalizeDefault "visit http://x.com/y now").data = true
    ∧ occursIn "http://x.com/y".data
        (normalizeDefault "visit http://x.com/y now").data = false := by
  refine ⟨by decide, by decide, by decide⟩

/-- C4 counterexample: the claim asks for the lowercase token `number`,
but the default-configuration output for `"call 555-1234 or 42.5 now"` is
`"call NUMBER NUMBER or NUMBER now"`, which does not contain `number`. -/
theorem C4_counterexample :
    ¬ (occursIn "number".data (normalizeDefault "call 555-1234 or 42.5 now").data = true
        ∧ occursIn "42.5".data (normalizeDefault "call 555-1234 or 42.5 now").data = false
        ∧ occursIn "call".data (normalizeDefault "call 555-1234 or 42.5 now").data = true
        ∧ occursIn "or".data (normalizeDefault "call 555-1234 or 42.5 now").data = true
        ∧ occursIn "now".data (normalizeDefault "call 555-1234 or 42.5 now").data = true) := by
  decide

/-- C4 amended: the default-configuration output for
`"call 555-1234 or 42.5 now"` is `"call NUMBER NUMBER or NUMBER now"`:
`42.5` and the standalone numeric tokens are replaced by the uppercase
sentinel token `NUMBER` (number replacement runs after lowercasing), and
the non-numeric tokens `call`, `or`, `now` are intact. -/
theorem C4_amended :
    normalizeDefault "call 555-1234 or 42.5 now" = "call NUMBER NUMBER or NUMBER now"
    ∧ occursIn "NUMBER".data (normalizeDefault "call 555-1234 or 42.5 now").data = true
    ∧ occursIn "42.5".data (normalizeDefault "call 555-1234 or 42.5 now").data = false
    ∧ occursIn "call".data (normalizeDefault "call 555-1234 or 42.5 now").data = true
    ∧ occursIn "or".data (normalizeDefault "call 555-1234 or 42.5 now").data = true
    ∧ occursIn "now".data (normalizeDefault "call 555-1234 or 42.5 now").data = true := by
  refine ⟨by decide, by decide, by decide, by decide, by decide, by decide⟩

/-- C5: in fallback mode (no usable artifact) the prediction is total and
returns the pair `(label, 0.85)` where the label is `"Spam"` exactly when
the keyword score reaches 3.  The score is a presence count: it filters
the fixed 23-phrase list by substring occurrence in the lowercased text,
so each phrase contributes at most one regardless of repetitions, and the
score never exceeds 23. -/
theorem C5_fallback : ∀ text : String,
    get_prediction_confidence none text
      = ((if 3 ≤ scamScore text then "Spam" else "Not Spam"), (0.85 : ℚ))
    ∧ scamScore text ≤ 23
    ∧ scamKeywords.length = 23 := by
  intro text
  refine ⟨?_, ?_, rfl⟩
  · simp [get_prediction_confidence, classify_email, fallback_classification]
  · have h := List.length_filter_le
      (fun k => occursIn k.data (text.data.map pyLower)) scamKeywords
    simpa [scamScore] using h

/-- C6: when the artifact reports two exactly equal class probabilities,
the argmax resolves to index 0 (numpy's first-maximum rule), so the label
is `"Not Spam"` and the confidence is the shared probability. -/
theorem C6_tie : ∀ (m : Artifact) (text : String) (p : ℚ),
    m.predict_proba text = some [p, p] →
    get_prediction_confidence (some m) text = ("Not Spam", p) := by
  intro m text p h
  simp [get_prediction_confidence, h, npArgmax, argmaxAux, lt_irrefl]

/-- C6 witness: an artifact with probability row `[1/2, 1/2]` yields
`("Not Spam", 1/2)`. -/
theorem C6_tie_witness :
    get_prediction_confidence (some tieArtifact) "x" = ("Not Spam", 1/2) :=
  C6_tie tieArtifact "x" (1/2) rfl

/-- C7: when the probability call fails but plain scoring succeeds with
class index `k`, the service returns the plain prediction (`"Spam"` for
index 1, `"Not Spam"` otherwise) with fixed confidence 0.85. -/
theorem C7_no_proba : ∀ (m : Artifact) (text : String) (k : Int),
    m.predict_proba text = none → m.predict text = some k →
    get_prediction_confidence (some m) text
      = ((if k = 1 then "Spam" else "Not Spam"), (0.85 : ℚ)) := by
  intro m text k h1 h2
  simp [get_prediction_confidence, classify_email, h1, h2]

/-- C7 witness: an artifact without probabilities whose plain prediction
is class 1 yields `("Spam", 0.85)`. -/
theorem C7_no_proba_witness :
    get_prediction_confidence (some noProbaArtifact) "x" = ("Spam", (0.85 : ℚ)) := by
  have h := C7_no_proba noProbaArtifact "x" 1 rfl rfl
  simpa using h

/-- C8: after a failed load the cache records `_model = None`,
`_model_loaded = True`; every later `load_model` call returns `None`
without retrying (whatever a fresh load attempt would produce) and leaves
the state unchanged, and every later prediction is the keyword-heuristic
pair. -/
theorem C8_permanent_fallback :
    load_model initState none = (none, ⟨none, true⟩)
    ∧ (∀ (attempt2 : Option Artifact) (text : String),
        load_model ⟨none, true⟩ attempt2 = (none, ⟨none, true⟩)
        ∧ get_prediction_confidence (load_model ⟨none, true⟩ attempt2).1 text
            = (fallback_classification text, (0.85 : ℚ))) := by
  refine ⟨rfl, fun attempt2 text => ⟨rfl, ?_⟩⟩
  simp [load_model, get_prediction_confidence, classify_email]

/-- A list is an `occursIn`-witnessed substring whenever it is a prefix. -/
theorem occursIn_of_isPrefixOf {p t : List Char} (h : p.isPrefixOf t = true) :
    occursIn p t = true := by
  cases t with
  | nil =>
    cases p with
    | nil => rfl
    | cons c cs => simp [List.isPrefixOf] at h
  | cons c rest => simp [occursIn, h]

/-- A list is a prefix of itself followed by anything. -/
theorem isPrefixOf_append_self : ∀ p b : List Char, p.isPrefixOf (p ++ b) = true := by
  intro p b
  induction p with
  | nil => simp [List.isPrefixOf]
  | cons c cs ih => simp [List.isPrefixOf, ih]

/-- Python substring containment holds at any explicit split. -/
theorem occursIn_append (p a b : List Char) : occursIn p (a ++ (p ++ b)) = true := by
  induction a with
  | nil => exact occursIn_of_isPrefixOf (isPrefixOf_append_self p b)
  | cons c a ih => simp [occursIn, ih]

/-- C10: the phrase list nests `verify` inside `verify your account`, and
matching is raw substring containment on the lowercased text, so one
occurrence of `verify your account` makes both phrases count: the keyword
score of any text containing it is at least 2. -/
theorem C10_nested_phrases : ∀ (text : String) (l r : List Char),
    text.data = l ++ "verify your account".data ++ r →
    2 ≤ scamScore text := by
  intro text l r h
  have hfix : "verify your account".data.map pyLower = "verify your account".data := by
    decide
  have hl : text.data.map pyLower
      = (l.map pyLower) ++ ("verify your account".data ++ (r.map pyLower)) := by
    rw [h, List.map_append, List.map_append, hfix, List.append_assoc]
  have h1 : occursIn "verify your account".data (text.data.map pyLower) = true := by
    rw [hl]
    exact occursIn_append _ _ _
  have h2 : occursIn "verify".data (text.data.map pyLower) = true := by
    have hsplit : ("verify your account".data ++ (r.map pyLower))
        = "verify".data ++ (" your account".data ++ (r.map pyLower)) := by
      simp [show "verify your account".data
          = "verify".data ++ " your account".data from by decide]
    rw [hl, hsplit]
    exact occursIn_append _ _ _
  have hsk : scamKeywords
      = ["urgent"] ++ "verify"
        :: (["suspended", "click here", "prize", "winner", "congratulations",
             "bank account", "password", "confirm identity", "act now",
             "limited time", "free money", "nigerian prince", "inheritance",
             "tax refund", "claim now", "account locked", "unusual activity",
             "expires today"]
          ++ "verify your account" :: ["confirm your identity", "update payment"]) := rfl
  unfold scamScore
  rw [hsk]
  simp only [List.filter_append, List.filter_cons, h1, h2, List.length_append,
    List.length_cons, if_true]
  omega

/-- C10 witness: a sentence containing `verify your account` scores at
least 2. -/
theorem C10_witness : 2 ≤ scamScore "please verify your account today" :=
  C10_nested_phrases _ "please ".data " today".data (by decide)

/-- C9: the `/predict` route returns 400 exactly when the body is missing
or the trimmed `email_text` is empty or shorter than 10 characters, and
otherwise 200 with the prediction label and confidence pair. -/
theorem C9_validation : ∀ (field : Option String) (m : Option Artifact),
    predictRoute none m = (400, none)
    ∧ ((predictRoute (some field) m).1 = 400
        ↔ trimmedField field = "" ∨ (trimmedField field).length < 10)
    ∧ (trimmedField field ≠ "" → ¬ (trimmedField field).length < 10 →
        predictRoute (some field) m
          = (200, some (get_prediction_confidence m (trimmedField field)))) := by
  intro field m
  refine ⟨rfl, ?_, ?_⟩
  · simp only [predictRoute, trimmedField]
    split_ifs with h1 h2 <;> simp_all
  · intro hne hlen
    simp only [predictRoute, trimmedField] at hne hlen ⊢
    rw [if_neg hne, if_neg hlen]

/-- C9 witness: a valid 11-character body is accepted with status 200 and
the service's prediction pair. -/
theorem C9_witness :
    predictRoute (some (some "hello world")) none
      = (200, some (get_prediction_confidence none "hello world")) := by
  have h := (C9_validation (some "hello world") none).2.2 (by decide) (by decide)
  have ht : trimmedField (some "hello world") = "hello world" := by decide
  rw [ht] at h
  exact h

/-- C3 counterexample: `"a\n \nb"` contains a line consisting only of
whitespace (a single space), yet `_strip_headers` leaves the text
unchanged instead of keeping only the text after that line: the regex
`\r?\n\r?\n` demands an empty line, not a whitespace-only line. -/
theorem C3_counterexample :
    stripHeaders "a\n \nb".data = "a\n \nb".data
    ∧ stripHeaders "a\n \nb".data ≠ "b".data := by
  exact ⟨by decide, by decide⟩

/-- Shapes of a successful `\r?\n` match. -/
theorem eatNl_eq_some : ∀ {l r : List Char}, eatNl l = some r →
    l = '\r' :: '\n' :: r ∨ l = '\n' :: r := by
  intro l r h
  match l with
  | [] => simp [eatNl] at h
  | c :: rest =>
    by_cases h1 : c = '\n'
    · subst h1
      simp [eatNl] at h
      subst h
      exact Or.inr rfl
    · by_cases h2 : c = '\r'
      · subst h2
        match rest with
        | [] => simp [eatNl] at h
        | c2 :: r2 =>
          by_cases h3 : c2 = '\n'
          · subst h3
            simp [eatNl] at h
            subst h
            exact Or.inl rfl
          · simp [eatNl, h3] at h
      · simp [eatNl, h1, h2] at h

/-- Each of the four blank-line separators matches `\r?\n\r?\n` exactly. -/
theorem matchBlank_pat : ∀ pat ∈ blankPatterns, ∀ post : List Char,
    matchBlank (pat ++ post) = some post := by
  intro pat hp post
  simp only [blankPatterns, List.mem_cons, List.not_mem_nil, or_false] at hp
  rcases hp with rfl | rfl | rfl | rfl <;> simp [matchBlank, eatNl]

/-- A successful `\r?\n\r?\n` match at the head is one of the four
blank-line separators. -/
theorem matchBlank_eq_some : ∀ {l r : List Char}, matchBlank l = some r →
    ∃ pat ∈ blankPatterns, l = pat ++ r := by
  intro l r h
  unfold matchBlank at h
  cases he : eatNl l with
  | none => rw [he] at h; simp at h
  | some m =>
    rw [he] at h
    simp at h
    rcases eatNl_eq_some he with h1 | h1 <;> rcases eatNl_eq_some h with h2 | h2
    · exact ⟨['\r','\n','\r','\n'], by simp [blankPatterns], by simp [h1, h2]⟩
    · exact ⟨['\r','\n','\n'], by simp [blankPatterns], by simp [h1, h2]⟩
    · exact ⟨['\n','\r','\n'], by simp [blankPatterns], by simp [h1, h2]⟩
    · exact ⟨['\n','\n'], by simp [blankPatterns], by simp [h1, h2]⟩

/-- Reduction of the scanner at a matching position. -/
theorem findBlankSplit_cons_of_match {c : Char} {rest r : List Char}
    (h : matchBlank (c :: rest) = some r) : findBlankSplit (c :: rest) = some r := by
  conv_lhs => unfold findBlankSplit
  rw [h]

/-- Reduction of the scanner at a non-matching position. -/
theorem findBlankSplit_cons_of_none {c : Char} {rest : List Char}
    (h : matchBlank (c :: rest) = none) :
    findBlankSplit (c :: rest) = findBlankSplit rest := by
  conv_lhs => unfold findBlankSplit
  rw [h]

/-- Every character of a blank-line separator is a line-ending character. -/
theorem blankPatterns_chars : ∀ p ∈ blankPatterns, ∀ x ∈ p, x = '\n' ∨ x = '\r' := by
  decide

/-- The leftmost `\r?\n\r?\n` match in a text whose header block contains
no separator and does not end in a line-ending character is the explicit
separator after the header.  (A match strictly inside the header would be
a separator occurrence in it; a match crossing into the separator would
force the header's last character to be a pattern character, i.e. `\n` or
`\r`.) -/
theorem findBlankSplit_append : ∀ (pre pat post : List Char), pat ∈ blankPatterns →
    (∀ pat2 ∈ blankPatterns, occursIn pat2 pre = false) →
    (∀ c, pre.getLast? = some c → c ≠ '\n' ∧ c ≠ '\r') →
    findBlankSplit (pre ++ (pat ++ post)) = some post := by
  intro pre pat post hp
  induction pre with
  | nil =>
    intro _ _
    have hm := matchBlank_pat pat hp post
    cases pat with
    | nil => simp [blankPatterns] at hp
    | cons p ps =>
      rw [List.nil_append]
      rw [List.cons_append] at hm ⊢
      exact findBlankSplit_cons_of_match hm
  | cons c pre2 ih =>
    intro hno hlast
    have hmb : matchBlank (c :: (pre2 ++ (pat ++ post))) = none := by
      cases hm : matchBlank (c :: (pre2 ++ (pat ++ post))) with
      | none => rfl
      | some r =>
        exfalso
        obtain ⟨pat2, hp2, heq⟩ := matchBlank_eq_some hm
        have heq2 : (c :: pre2) ++ (pat ++ post) = pat2 ++ r := by
          simpa using heq
        rcases le_or_lt pat2.length (c :: pre2).length with hle | hlt
        · have h1 : ((c :: pre2) ++ (pat ++ post)).take pat2.length
              = (c :: pre2).take pat2.length :=
            List.take_append_of_le_length hle
          have h2 := List.take_left pat2 r
          rw [heq2, h2] at h1
          have hpre : pat2 <+: (c :: pre2) := by
            rw [h1]
            exact List.take_prefix _ _
          obtain ⟨tail2, htail⟩ := hpre
          have hocc : occursIn pat2 (c :: pre2) = true := by
            rw [← htail]
            simpa using occursIn_append pat2 [] tail2
          rw [hno pat2 hp2] at hocc
          exact absurd hocc (by simp)
        · have h1 := List.take_left (c :: pre2) (pat ++ post)
          rw [heq2] at h1
          have h2 : (pat2 ++ r).take (c :: pre2).length
              = pat2.take (c :: pre2).length :=
            List.take_append_of_le_length (Nat.le_of_lt hlt)
          rw [h2] at h1
          have hpre : (c :: pre2) <+: pat2 := by
            rw [← h1]
            exact List.take_prefix _ _
          obtain ⟨a, ha⟩ := Option.isSome_iff_exists.mp
            (List.getLast?_isSome.mpr (List.cons_ne_nil c pre2))
          have hmem : a ∈ pat2 :=
            hpre.sublist.subset (List.mem_of_getLast?_eq_some ha)
          rcases blankPatterns_chars pat2 hp2 a hmem with h | h
          · exact (hlast a ha).1 h
          · exact (hlast a ha).2 h
    rw [List.cons_append, findBlankSplit_cons_of_none hmb]
    refine ih ?_ ?_
    · intro pat2 hp2
      have h0 := hno pat2 hp2
      simp only [occursIn, Bool.or_eq_false_iff] at h0
      exact h0.2
    · intro c2 hc2
      cases pre2 with
      | nil => simp at hc2
      | cons e es => exact hlast c2 (by rw [List.getLast?_cons_cons]; exact hc2)

/-- When no blank-line separator occurs anywhere, the split never fires. -/
theorem findBlankSplit_none : ∀ t : List Char,
    (∀ pat ∈ blankPatterns, occursIn pat t = false) → findBlankSplit t = none := by
  intro t h
  induction t with
  | nil => rfl
  | cons c rest ih =>
    have hm : matchBlank (c :: rest) = none := by
      cases hmb : matchBlank (c :: rest) with
      | none => rfl
      | some r =>
        obtain ⟨pat, hpat, heq⟩ := matchBlank_eq_some hmb
        have hocc : occursIn pat (c :: rest) = true := by
          rw [heq]
          simpa using occursIn_append pat [] r
        rw [h pat hpat] at hocc
        exact absurd hocc (by simp)
    rw [findBlankSplit_cons_of_none hm]
    refine ih fun pat hp => ?_
    have hcr := h pat hp
    simp only [occursIn, Bool.or_eq_false_iff] at hcr
    exact hcr.2

/-- C3 amended: header stripping splits at the first occurrence of an
empty line — two consecutive line endings, each `\n` or `\r\n` — keeping
only the text after it.  The header block before the separator may span
any number of lines: it only must contain no empty-line separator of its
own (so the explicit one is the first) and not end in a dangling
line-ending character (which would belong to the separator).  When no
separator occurs anywhere the text is unchanged.  (The original claim's
"line containing only whitespace" is wrong: only a fully empty line
separates.) -/
theorem C3_amended :
    (∀ (pre pat post : List Char), pat ∈ blankPatterns →
        (∀ pat2 ∈ blankPatterns, occursIn pat2 pre = false) →
        (∀ c, pre.getLast? = some c → c ≠ '\n' ∧ c ≠ '\r') →
        stripHeaders (pre ++ (pat ++ post)) = post)
    ∧ (∀ t : List Char, (∀ pat ∈ blankPatterns, occursIn pat t = false) →
        stripHeaders t = t) := by
  constructor
  · intro pre pat post hp hno hlast
    unfold stripHeaders
    rw [findBlankSplit_append pre pat post hp hno hlast]
    rfl
  · intro t h
    unfold stripHeaders
    rw [findBlankSplit_none t h]
    rfl

/-- C3 witness: a multi-line header block separated by an empty line is
stripped, keeping the body. -/
theorem C3_witness :
    stripHeaders ("From: a\nTo: b".data ++ (['\n', '\n'] ++ "Body".data))
      = "Body".data := by
  refine C3_amended.1 "From: a\nTo: b".data ['\n', '\n'] "Body".data
    (by decide) (by decide) ?_
  intro c hc
  rw [(by decide : ("From: a\nTo: b".data).getLast? = some 'b')] at hc
  simp only [Option.some.injEq] at hc
  rw [← hc]
  decide

/-- Valid code points below the surrogate range round-trip through
`Char.ofNat`. -/
theorem toNat_ofNat_of_lt {n : Nat} (h : n < 55296) : (Char.ofNat n).toNat = n := by
  have hv : n.isValidChar := Or.inl h
  rw [Char.ofNat, dif_pos hv]
  rfl

/-- Lowercasing a character twice is the same as lowercasing it once. -/
theorem pyLower_idem (c : Char) : pyLower (pyLower c) = pyLower c := by
  by_cases h : 65 ≤ c.toNat ∧ c.toNat ≤ 90
  · have h1 : pyLower c = Char.ofNat (c.toNat + 32) := by rw [pyLower, if_pos h]
    have ht : (Char.ofNat (c.toNat + 32)).toNat = c.toNat + 32 :=
      toNat_ofNat_of_lt (by omega)
    rw [h1, pyLower, ht, if_neg (by omega)]
  · have h1 : pyLower c = c := by rw [pyLower, if_neg h]
    rw [h1, h1]

/-- Characters of the collapsed text: either survivors (necessarily
non-whitespace) or inserted single spaces. -/
theorem mem_collapseWs : ∀ (b : Bool) (l : List Char) (c : Char),
    c ∈ collapseWs b l → (c ∈ l ∧ isWs c = false) ∨ c = ' ' := by
  intro b l
  induction l generalizing b with
  | nil => intro c hc; simp [collapseWs] at hc
  | cons d rest ih =>
    intro c hc
    cases hw : isWs d with
    | true =>
      cases b with
      | true =>
        simp only [collapseWs, hw, if_true] at hc
        rcases ih true c hc with ⟨h1, h2⟩ | h1
        · exact Or.inl ⟨List.mem_cons_of_mem d h1, h2⟩
        · exact Or.inr h1
      | false =>
        simp only [collapseWs, hw] at hc
        rcases List.mem_cons.mp hc with h1 | h1
        · exact Or.inr h1
        · rcases ih true c h1 with ⟨h2, h3⟩ | h2
          · exact Or.inl ⟨List.mem_cons_of_mem d h2, h3⟩
          · exact Or.inr h2
    | false =>
      simp only [collapseWs, hw] at hc
      rcases List.mem_cons.mp hc with h1 | h1
      · subst h1; exact Or.inl ⟨List.mem_cons_self _ _, hw⟩
      · rcases ih false c h1 with ⟨h2, h3⟩ | h2
        · exact Or.inl ⟨List.mem_cons_of_mem d h2, h3⟩
        · exact Or.inr h2

/-- With the just-emitted-whitespace flag set, the collapsed text never
starts with whitespace. -/
theorem collapseWs_true_head : ∀ (l : List Char) (c : Char),
    (collapseWs true l).head? = some c → isWs c = false := by
  intro l
  induction l with
  | nil => intro c hc; simp [collapseWs] at hc
  | cons d rest ih =>
    intro c hc
    cases hw : isWs d with
    | true =>
      simp only [collapseWs, hw, if_true] at hc
      exact ih c hc
    | false =>
      simp [collapseWs, hw] at hc
      rw [← hc]
      exact hw

/-- The collapsed text has no two adjacent whitespace characters. -/
theorem chain_collapseWs : ∀ (b : Bool) (l : List Char),
    List.Chain' sepOk (collapseWs b l) := by
  intro b l
  induction l generalizing b with
  | nil => simp [collapseWs]
  | cons d rest ih =>
    cases hw : isWs d with
    | true =>
      cases b with
      | true => simpa only [collapseWs, hw, if_true] using ih true
      | false =>
        simp only [collapseWs, hw]
        refine List.chain'_cons'.mpr ⟨fun y hy => ?_, ih true⟩
        exact Or.inr (collapseWs_true_head rest y hy)
    | false =>
      simp only [collapseWs, hw]
      exact List.chain'_cons'.mpr ⟨fun y _ => Or.inl hw, ih false⟩

/-- The head of a `dropWhile` result fails the predicate. -/
theorem dropWhile_head_false : ∀ (p : Char → Bool) (l : List Char) (c : Char),
    (l.dropWhile p).head? = some c → p c = false := by
  intro p l
  induction l with
  | nil => intro c hc; simp [List.dropWhile] at hc
  | cons d rest ih =>
    intro c hc
    cases hp : p d with
    | true =>
      rw [List.dropWhile_cons, if_pos hp] at hc
      exact ih c hc
    | false =>
      rw [List.dropWhile_cons, if_neg (by simp [hp])] at hc
      simp only [List.head?_cons, Option.some.injEq] at hc
      subst hc
      exact hp

/-- Stripping is a prefix of the front-trimmed list. -/
theorem pyStrip_pre (l : List Char) : pyStrip l <+: l.dropWhile isWs := by
  unfold pyStrip
  have h1 : (l.dropWhile isWs).reverse.dropWhile isWs <:+ (l.dropWhile isWs).reverse :=
    List.dropWhile_suffix _
  have h2 := List.reverse_prefix.mpr h1
  rwa [List.reverse_reverse] at h2

/-- A nonempty prefix has the same head. -/
theorem head?_of_pre {l₁ l₂ : List Char} {c : Char} (h : l₁ <+: l₂)
    (hc : l₁.head? = some c) : l₂.head? = some c := by
  obtain ⟨t, rfl⟩ := h
  cases l₁ with
  | nil => simp at hc
  | cons a r => simpa using hc

/-- The normalized text never starts with whitespace. -/
theorem wsNormalize_head {l : List Char} {c : Char}
    (h : (wsNormalize l).head? = some c) : isWs c = false := by
  unfold wsNormalize at h
  have hp := pyStrip_pre (collapseWs false l)
  exact dropWhile_head_false isWs _ c (head?_of_pre hp h)

/-- The normalized text never ends with whitespace. -/
theorem wsNormalize_last {l : List Char} {c : Char}
    (h : (wsNormalize l).getLast? = some c) : isWs c = false := by
  unfold wsNormalize pyStrip at h
  rw [← List.head?_reverse, List.reverse_reverse] at h
  exact dropWhile_head_false isWs _ c h

/-- The normalized text has no two adjacent whitespace characters. -/
theorem wsNormalize_chain (l : List Char) : List.Chain' sepOk (wsNormalize l) := by
  have h1 : List.Chain' sepOk ((collapseWs false l).dropWhile isWs) :=
    (chain_collapseWs false l).suffix (List.dropWhile_suffix _)
  have h2 : List.Chain' sepOk ((collapseWs false l).dropWhile isWs).reverse := by
    rw [List.chain'_reverse]
    exact h1.imp fun a b hab => Or.symm hab
  have h3 : List.Chain' sepOk
      (((collapseWs false l).dropWhile isWs).reverse.dropWhile isWs) :=
    h2.suffix (List.dropWhile_suffix _)
  show List.Chain' sepOk
      ((((collapseWs false l).dropWhile isWs).reverse.dropWhile isWs).reverse)
  rw [List.chain'_reverse]
  exact h3.imp fun a b hab => Or.symm hab

/-- Characters of the normalized text: either non-whitespace survivors of
the input or inserted single spaces. -/
theorem mem_wsNormalize {l : List Char} {c : Char} (h : c ∈ wsNormalize l) :
    (c ∈ l ∧ isWs c = false) ∨ c = ' ' := by
  unfold wsNormalize pyStrip at h
  rw [List.mem_reverse] at h
  have h1 := (List.dropWhile_suffix isWs).sublist.subset h
  rw [List.mem_reverse] at h1
  have h2 := (List.dropWhile_suffix isWs).sublist.subset h1
  exact mem_collapseWs false l c h2

/-- The two collapse modes agree on a list that does not start with
whitespace. -/
theorem collapseWs_true_eq_false (l : List Char)
    (h : ∀ c, l.head? = some c → isWs c = false) :
    collapseWs true l = collapseWs false l := by
  cases l with
  | nil => rfl
  | cons d rest => simp [collapseWs, h d rfl]

/-- Collapsing fixes a list whose whitespace is single interior spaces. -/
theorem collapseWs_eq_self : ∀ l : List Char,
    (∀ c ∈ l, isWs c = true → c = ' ') →
    List.Chain' sepOk l →
    (∀ c, l.getLast? = some c → isWs c = false) →
    collapseWs false l = l := by
  intro l
  induction l with
  | nil => intro _ _ _; rfl
  | cons d rest ih =>
    intro hws hchain hlast
    cases hw : isWs d with
    | false =>
      rw [show collapseWs false (d :: rest) = d :: collapseWs false rest from by
        simp [collapseWs, hw]]
      refine congrArg (d :: ·) (ih ?_ hchain.tail ?_)
      · exact fun c hc hw2 => hws c (List.mem_cons_of_mem d hc) hw2
      · intro c hc
        cases rest with
        | nil => simp at hc
        | cons e r2 => exact hlast c (by rw [List.getLast?_cons_cons]; exact hc)
    | true =>
      have hd : d = ' ' := hws d (List.mem_cons_self d rest) hw
      subst hd
      have hsp : isWs ' ' = true := by decide
      cases rest with
      | nil =>
        have hbad := hlast ' ' (by simp)
        rw [hsp] at hbad
        cases hbad
      | cons e r2 =>
        have he : isWs e = false := by
          rcases (List.chain'_cons'.mp hchain).1 e rfl with h1 | h1
          · rw [hsp] at h1; cases h1
          · exact h1
        have hrest : collapseWs false (e :: r2) = e :: r2 := by
          refine ih ?_ hchain.tail ?_
          · exact fun c hc hw2 => hws c (List.mem_cons_of_mem _ hc) hw2
          · intro c hc; exact hlast c (by rw [List.getLast?_cons_cons]; exact hc)
        calc collapseWs false (' ' :: e :: r2)
            = ' ' :: collapseWs true (e :: r2) := by simp [collapseWs, hsp]
          _ = ' ' :: collapseWs false (e :: r2) := by
              rw [collapseWs_true_eq_false]
              intro c hc
              simp only [List.head?_cons, Option.some.injEq] at hc
              rw [← hc]; exact he
          _ = ' ' :: e :: r2 := by rw [hrest]

/-- Front-trimming fixes a list not starting with whitespace. -/
theorem dropWhile_eq_self_of_head (l : List Char)
    (h : ∀ c, l.head? = some c → isWs c = false) : l.dropWhile isWs = l := by
  cases l with
  | nil => rfl
  | cons d rest => rw [List.dropWhile_cons, if_neg (by simp [h d rfl])]

/-- Stripping fixes a list with non-whitespace endpoints. -/
theorem pyStrip_eq_self (l : List Char)
    (hh : ∀ c, l.head? = some c → isWs c = false)
    (hl : ∀ c, l.getLast? = some c → isWs c = false) : pyStrip l = l := by
  unfold pyStrip
  rw [dropWhile_eq_self_of_head l hh,
    dropWhile_eq_self_of_head l.reverse
      (fun c hc => hl c (by rwa [List.head?_reverse] at hc)),
    List.reverse_reverse]

/-- The collapse-and-strip step fixes any canonical list. -/
theorem wsNormalize_eq_self (l : List Char)
    (hws : ∀ c ∈ l, isWs c = true → c = ' ')
    (hchain : List.Chain' sepOk l)
    (hh : ∀ c, l.head? = some c → isWs c = false)
    (hl : ∀ c, l.getLast? = some c → isWs c = false) :
    wsNormalize l = l := by
  unfold wsNormalize
  rw [collapseWs_eq_self l hws hchain hl]
  exact pyStrip_eq_self l hh hl

/-- The collapse-and-strip step is idempotent. -/
theorem wsNormalize_idem (l : List Char) :
    wsNormalize (wsNormalize l) = wsNormalize l := by
  refine wsNormalize_eq_self _ ?_ (wsNormalize_chain l)
    (fun c hc => wsNormalize_head hc) (fun c hc => wsNormalize_last hc)
  intro c hc hw
  rcases mem_wsNormalize hc with ⟨_, h2⟩ | h2
  · rw [hw] at h2; cases h2
  · exact h2

/-- Every character of a matched occurrence is in the text. -/
theorem mem_of_occursIn {p t : List Char} {c : Char} (h : occursIn p t = true)
    (hc : c ∈ p) : c ∈ t := by
  induction t with
  | nil =>
    simp only [occursIn, List.isEmpty_iff] at h
    subst h
    simp at hc
  | cons d rest ih =>
    simp only [occursIn, Bool.or_eq_true] at h
    rcases h with h | h
    · have hp : p <+: d :: rest := List.isPrefixOf_iff_prefix.mp h
      exact hp.sublist.subset hc
    · exact List.mem_cons_of_mem d (ih h)

/-- Every blank-line separator contains a newline. -/
theorem blankPatterns_nl : ∀ pat ∈ blankPatterns, '\n' ∈ pat := by decide

/-- Header stripping fixes any newline-free text. -/
theorem stripHeaders_eq_self {l : List Char} (h : '\n' ∉ l) :
    stripHeaders l = l := by
  have hall : ∀ pat ∈ blankPatterns, occursIn pat l = false := by
    intro pat hp
    cases ho : occursIn pat l with
    | false => rfl
    | true => exact absurd (mem_of_occursIn ho (blankPatterns_nl pat hp)) h
  unfold stripHeaders
  rw [findBlankSplit_none l hall]
  rfl

/-- Mapping a function that fixes every element is the identity. -/
theorem map_id_of_fix (f : Char → Char) : ∀ l : List Char,
    (∀ c ∈ l, f c = c) → l.map f = l := by
  intro l h
  induction l with
  | nil => rfl
  | cons d rest ih =>
    simp only [List.map_cons]
    rw [h d (List.mem_cons_self d rest),
      ih fun c hc => h c (List.mem_cons_of_mem d hc)]

/-- Every character surviving punctuation removal is a word character or
whitespace. -/
theorem mem_removePunct_wordOrWs {l : List Char} {c : Char}
    (h : c ∈ removePunct l) : isWordChar c = true ∨ isWs c = true := by
  unfold removePunct at h
  rw [List.mem_map] at h
  obtain ⟨a, _, ha⟩ := h
  cases hcond : (isWordChar a || isWs a) with
  | true =>
    rw [hcond] at ha
    simp at ha
    rw [← ha]
    exact Bool.or_eq_true_iff.mp hcond
  | false =>
    rw [hcond] at ha
    simp at ha
    rw [← ha]
    right
    decide

/-- Every character of the punctuation-removal output is a space or an
input character. -/
theorem mem_removePunct_sub {l : List Char} {c : Char}
    (h : c ∈ removePunct l) : c = ' ' ∨ c ∈ l := by
  unfold removePunct at h
  rw [List.mem_map] at h
  obtain ⟨a, hmem, ha⟩ := h
  cases hcond : (isWordChar a || isWs a) with
  | true =>
    rw [hcond] at ha
    simp at ha
    rw [← ha]
    exact Or.inr hmem
  | false =>
    rw [hcond] at ha
    simp at ha
    exact Or.inl ha.symm

/-- Punctuation removal fixes a text of word characters and whitespace. -/
theorem removePunct_eq_self {l : List Char}
    (h : ∀ c ∈ l, isWordChar c = true ∨ isWs c = true) :
    removePunct l = l := by
  unfold removePunct
  refine map_id_of_fix _ l fun c hc => ?_
  rcases h c hc with h1 | h1 <;> simp [h1]

/-- Characters produced by lowercasing are fixed by lowercasing. -/
theorem pyLower_fix_of_mem_map {u : List Char} {c : Char}
    (h : c ∈ u.map pyLower) : pyLower c = c := by
  rw [List.mem_map] at h
  obtain ⟨a, _, rfl⟩ := h
  exact pyLower_idem a

/-- The restricted pipeline (URL replacement, number replacement and
stemming disabled) is idempotent. -/
theorem corePipeline_idem (fs flc fp : Bool) (l : List Char) :
    corePipeline fs flc fp (corePipeline fs flc fp l) = corePipeline fs flc fp l := by
  unfold corePipeline
  generalize hZ : stepPunct fp (stepLower flc (stepStrip fs l)) = Z
  have hws : ∀ c ∈ wsNormalize Z, isWs c = true → c = ' ' := by
    intro c hc hw
    rcases mem_wsNormalize hc with ⟨_, h2⟩ | h2
    · rw [hw] at h2; cases h2
    · exact h2
  have hnl : '\n' ∉ wsNormalize Z := by
    intro hmem
    have h1 := hws '\n' hmem (by decide)
    exact absurd h1 (by decide)
  have hstrip : stepStrip fs (wsNormalize Z) = wsNormalize Z := by
    cases fs with
    | false => simp [stepStrip]
    | true => simpa [stepStrip] using stripHeaders_eq_self hnl
  have hlower : stepLower flc (wsNormalize Z) = wsNormalize Z := by
    cases flc with
    | false => simp [stepLower]
    | true =>
      show (if true then (wsNormalize Z).map pyLower else wsNormalize Z) = wsNormalize Z
      rw [if_pos rfl]
      refine map_id_of_fix _ _ fun c hc => ?_
      rcases mem_wsNormalize hc with ⟨h1, _⟩ | h1
      · rw [← hZ] at h1
        cases fp with
        | false =>
          simp only [stepPunct, stepLower, if_neg, if_pos] at h1
          exact pyLower_fix_of_mem_map (by simpa [stepPunct, stepLower] using h1)
        | true =>
          have h1p : c ∈ removePunct ((stepStrip fs l).map pyLower) := by
            simpa [stepPunct, stepLower] using h1
          rcases mem_removePunct_sub h1p with h2 | h2
          · rw [h2]; rfl
          · exact pyLower_fix_of_mem_map h2
      · rw [h1]; rfl
  have hpunct : stepPunct fp (wsNormalize Z) = wsNormalize Z := by
    cases fp with
    | false => simp [stepPunct]
    | true =>
      show (if true then removePunct (wsNormalize Z) else wsNormalize Z) = wsNormalize Z
      rw [if_pos rfl]
      refine removePunct_eq_self fun c hc => ?_
      rcases mem_wsNormalize hc with ⟨h1, _⟩ | h1
      · rw [← hZ] at h1
        exact mem_removePunct_wordOrWs (by simpa [stepPunct] using h1)
      · rw [h1]
        exact Or.inr (by decide)
  rw [hstrip, hlower, hpunct, wsNormalize_idem]

/-- C1 amended: normalization is idempotent for every configuration in
which URL replacement, number replacement and stemming are disabled (the
header-stripping, lowercasing and punctuation-removal toggles are
arbitrary).  With URL or number replacement enabled together with
lowercasing it is not idempotent, because the sentinel tokens `URL` and
`NUMBER` are inserted after the lowercasing step and a second pass
lowercases them (see the counterexample). -/
theorem C1_amended : ∀ (cfg : NormalizerConfig) (stem : List Char → List Char)
    (x : String),
    cfg.replace_urls = false → cfg.replace_numbers = false →
    cfg.do_stemming = false →
    transform cfg stem (transform cfg stem x) = transform cfg stem x := by
  intro cfg stem x hu hn hs
  have htr : ∀ s : String, transform cfg stem s
      = ⟨corePipeline cfg.strip_headers cfg.lowercase cfg.remove_punctuation s.data⟩ := by
    intro s
    simp [transform, corePipeline, stepStrip, stepLower, stepPunct, hu, hn, hs]
  rw [htr x, htr _]
  exact congrArg String.mk
    (corePipeline_idem cfg.strip_headers cfg.lowercase cfg.remove_punctuation x.data)

/-- C1 amended witness: a concrete two-pass run with URL and number
replacement disabled is a fixed point after one pass. -/
theorem C1_witness :
    transform ⟨true, true, false, false, true, false⟩ id
        (transform ⟨true, true, false, false, true, false⟩ id
          "From: x\n\n  Hello,   WORLD!  ")
      = transform ⟨true, true, false, false, true, false⟩ id
          "From: x\n\n  Hello,   WORLD!  " :=
  C1_amended ⟨true, true, false, false, true, false⟩ id
    "From: x\n\n  Hello,   WORLD!  " rfl rfl rfl
